import Mathlib

/-!
# Backward abs layer, batch processing mode (`abs_layer_backward.h`)

A shallow embedding of `daal::algorithms::neural_networks::layers::abs::backward::Batch`.

The C++ class is pointer-heavy (`_in = &input`, `_res = _result.get()`, shared-owned
`Result`), so objects live in an explicit store:

* `World.batches` holds the `Batch` objects, `World.results` the `Result` objects and
  `World.containers` the `BatchContainer` objects; an address is an index into the
  respective list and `new` appends (addresses are never reused);
* a `SharedPtr<T>` is an `Option Addr` (`none` is the empty handle);
* a member function takes the store and the address of `this` and returns `none` when it
  dereferences a null or dangling pointer (undefined behaviour in C++).

`Input`, `Result`, `Parameter`, the tensor handle and the `Analysis<batch>` base class are
declared in headers that are not part of this file; they are modelled as small records.
`Result::allocate` is a parameter `alloc` of `Batch.allocateResult`.
-/

namespace AbsLayerBackward

/-- Address of an object in one of the stores of a `World`. -/
abbrev Addr := Nat

/-- Computation method of the layer (`Method` of `abs_layer_types.h`), represented by the
integer value of the enumerator. -/
abbrev Method := Int

/-- The only method the layer documents. -/
def defaultDense : Method := 0

/-- The `algorithmFPType` template argument: `float` or `double`. -/
inductive FPType where
  | float
  | double
  deriving DecidableEq, Repr

/-- Modelled from the spec: the tensor class of `data_management/data/tensor.h`, which is
not among the sources. The spec has a tensor handle refer to multi-dimensional storage
and give access to its shape; the record keeps the identity of the tensor and the shape. -/
structure Tensor where
  id : Nat
  dims : List Nat
  deriving DecidableEq, Repr

/-- A shared-ownership tensor handle, `none` being the empty handle. -/
abbrev TensorPtr := Option Tensor

/-- Modelled from the spec: the identifiers `layers::backward::inputGradient` and
`layers::backward::inputFromForward` of the input slots, declared in `layer.h`, which is
not among the sources. -/
inductive InputId where
  | inputGradient
  | inputFromForward
  deriving DecidableEq, Repr

/-- Modelled from the spec: the class `Input` of `abs_layer_backward_types.h`, which is not
among the sources. The spec has it map the slots `inputGradient` and `inputFromForward`
to handles. -/
structure Input where
  inputGradient : TensorPtr
  inputFromForward : TensorPtr
  deriving DecidableEq, Repr

/-- Modelled from the spec: a default-constructed `Input`, both slots absent. -/
def Input.empty : Input := ⟨none, none⟩

/-- Modelled from the spec: the member `Input::get(id)`, the handle in slot `id`. -/
def Input.get (i : Input) : InputId → TensorPtr
  | .inputGradient => i.inputGradient
  | .inputFromForward => i.inputFromForward

/-- Modelled from the spec: the member `Input::set(id, ptr)`, which puts `ptr` in slot `id`
and leaves the other slot alone. -/
def Input.set (i : Input) (id : InputId) (v : TensorPtr) : Input :=
  match id with
  | .inputGradient => { i with inputGradient := v }
  | .inputFromForward => { i with inputFromForward := v }

/-- Modelled from the spec: the class `Parameter` of `layer.h`, which is not among the
sources; the backward abs layer has no parameters, so the record is empty. -/
structure Parameter where
  deriving DecidableEq, Repr

/-- Modelled from the spec: what the result-status channel reports of the last allocation
performed on a `Result`. -/
inductive Status where
  | ok
  | configurationError
  deriving DecidableEq, Repr

/-- Modelled from the spec: the class `Result` of `abs_layer_backward_types.h`, which is
not among the sources. The record keeps the shape of the tensor in the gradient slot
(`none` while the slot is empty) and the status the last allocation reported. -/
structure Result where
  gradient : Option (List Nat)
  status : Status
  deriving DecidableEq, Repr

/-- Modelled from the spec: the object `new Result()` creates, which the spec has created
empty. -/
def Result.new : Result := ⟨none, Status.ok⟩

/-- Pointer to an `Input` object. Every `Input` here is the `input` member of a `Batch`,
so it is addressed through the `Batch` that embeds it. -/
structure InputPtr where
  owner : Addr
  deriving DecidableEq, Repr

/-- A `BatchContainer<algorithmFPType, method, cpu>` object built from the `&_env` of the
layer at address `env`. The constructor is declared here and defined elsewhere; the cpu
is chosen by the dispatch helper `__DAAL_ALGORITHM_CONTAINER` and is not recorded. -/
structure BatchContainer where
  fpType : FPType
  method : Method
  env : Addr
  deriving DecidableEq, Repr

/-- The `get()` member of a shared pointer: the raw pointer, null for the empty handle. -/
def SharedPtr.get (p : Option Addr) : Option Addr := p

/-- A `Batch<algorithmFPType, method>` object: the two template arguments, the public
`input` member, the pointers `_ac`, `_in`, `_res` inherited from the algorithm base class
and the private shared pointer `_result`. -/
structure Batch where
  fpType : FPType
  method : Method
  input : Input
  _ac : Option Addr
  _in : Option InputPtr
  _res : Option Addr
  _result : Option Addr
  deriving DecidableEq, Repr

/-- The object store. -/
structure World where
  batches : List Batch
  results : List Result
  containers : List BatchContainer
  deriving DecidableEq, Repr

/-- The store before anything is created. -/
def World.empty : World := ⟨[], [], []⟩

/-- Signature of `Result::allocate<algorithmFPType>(input, parameter, method)`, acting on
the `Result` it is called on. -/
abbrev Allocate := FPType → Input → Option Parameter → Int → Result → Result

/-- Replace the `Batch` stored at `self`. -/
def World.putBatch (w : World) (self : Addr) (b : Batch) : World :=
  { w with batches := w.batches.set self b }

/-- Modelled from the spec: the state of a `Batch` object when the body of a constructor
starts. The base class of `algorithms/algorithm.h` is not among the sources; the spec has
a constructed layer unallocated, with no active result, so the pointers `_ac`, `_in` and
`_res` start null; the members `input` and `_result` are default-constructed (empty). -/
def Batch.base (fp : FPType) (m : Method) : Batch :=
  { fpType := fp, method := m, input := Input.empty,
    _ac := none, _in := none, _res := none, _result := none }

/-- `Batch::initialize()`: create the container from `&_env`, link `_in` to the own
`input`, create a new `Result`. -/
def Batch.initialize (w : World) (self : Addr) : Option World :=
  match w.batches[self]? with
  | none => none
  | some b =>
    some { batches := w.batches.set self
             { b with _ac := some w.containers.length,
                      _in := some ⟨self⟩,
                      _result := some w.results.length },
           results := w.results ++ [Result.new],
           containers := w.containers ++ [⟨b.fpType, b.method, self⟩] }

/-- `input.set(id, ptr)` on the `input` member of the `Batch` at `self`. -/
def Batch.inputSet (w : World) (self : Addr) (id : InputId) (v : TensorPtr) : Option World :=
  match w.batches[self]? with
  | none => none
  | some b => some (w.putBatch self { b with input := b.input.set id v })

/-- `input.get(id)` on the `input` member of the `Batch` at `self`. -/
def Batch.inputGet (w : World) (self : Addr) (id : InputId) : Option TensorPtr :=
  match w.batches[self]? with
  | none => none
  | some b => some (b.input.get id)

/-- The default constructor `Batch()`, run on newly obtained storage. -/
def Batch.new (fp : FPType) (m : Method) (w : World) : Option (World × Addr) :=
  let self := w.batches.length
  match Batch.initialize { w with batches := w.batches ++ [Batch.base fp m] } self with
  | none => none
  | some w1 => some (w1, self)

/-- The copy constructor `Batch(const Batch &other)`, run on newly obtained storage. -/
def Batch.copy (w : World) (other : Addr) : Option (World × Addr) :=
  match w.batches[other]? with
  | none => none
  | some o =>
    let self := w.batches.length
    match Batch.initialize { w with batches := w.batches ++ [Batch.base o.fpType o.method] } self with
    | none => none
    | some w1 =>
      match Batch.inputGet w1 other InputId.inputGradient with
      | none => none
      | some g =>
        match Batch.inputSet w1 self InputId.inputGradient g with
        | none => none
        | some w2 =>
          match Batch.inputGet w2 other InputId.inputFromForward with
          | none => none
          | some f =>
            match Batch.inputSet w2 self InputId.inputFromForward f with
            | none => none
            | some w3 => some (w3, self)

/-- `Batch::getMethod()`. -/
def Batch.getMethod (w : World) (self : Addr) : Option Int :=
  match w.batches[self]? with
  | none => none
  | some b => some b.method

/-- `Batch::getLayerInput()`: `&input`. -/
def Batch.getLayerInput (w : World) (self : Addr) : Option InputPtr :=
  match w.batches[self]? with
  | none => none
  | some _ => some ⟨self⟩

/-- `Batch::getLayerParameter()`: `NULL`. -/
def Batch.getLayerParameter (w : World) (self : Addr) : Option (Option Parameter) :=
  match w.batches[self]? with
  | none => none
  | some _ => some none

/-- `Batch::getLayerResult()`. -/
def Batch.getLayerResult (w : World) (self : Addr) : Option (Option Addr) :=
  match w.batches[self]? with
  | none => none
  | some b => some b._result

/-- `Batch::getResult()`. -/
def Batch.getResult (w : World) (self : Addr) : Option (Option Addr) :=
  match w.batches[self]? with
  | none => none
  | some b => some b._result

/-- `Batch::setResult(result)`. -/
def Batch.setResult (w : World) (self : Addr) (result : Option Addr) : Option World :=
  match w.batches[self]? with
  | none => none
  | some b => some (w.putBatch self { b with _result := result, _res := SharedPtr.get result })

/-- `Batch::cloneImpl()`: `new Batch(*this)`. -/
def Batch.cloneImpl (w : World) (self : Addr) : Option (World × Addr) :=
  Batch.copy w self

/-- `Batch::clone()`: the shared pointer wrapping `cloneImpl()`. -/
def Batch.clone (w : World) (self : Addr) : Option (World × Addr) :=
  Batch.cloneImpl w self

/-- `Batch::allocateResult()`: call `allocate` on the object `_result` points to, passing
`&input`, `NULL` and `(int) method`, then set `_res = _result.get()`. -/
def Batch.allocateResult (alloc : Allocate) (w : World) (self : Addr) : Option World :=
  match w.batches[self]? with
  | none => none
  | some b =>
    match b._result with
    | none => none
    | some r =>
      match w.results[r]? with
      | none => none
      | some obj =>
        some { w with
          results := w.results.set r (alloc b.fpType b.input none b.method obj),
          batches := w.batches.set self { b with _res := SharedPtr.get b._result } }

/-! ## Client programs

A client of the class creates layers and results, fills input slots and calls the public
member functions. `Op` lists these calls, `step` runs one and `run` a sequence. -/

/-- Whether a `SharedPtr<Result>` a caller can hold in store `w`: empty, or pointing to a
`Result` that exists (shared ownership keeps the target alive). -/
def validHandle (w : World) : Option Addr → Bool
  | none => true
  | some r => decide (r < w.results.length)

/-- One call made by a client. -/
inductive Op where
  | newBatch (fp : FPType) (m : Method)
  | copyBatch (other : Addr)
  | clone (self : Addr)
  | newResult
  | inputSet (self : Addr) (id : InputId) (v : TensorPtr)
  | setResult (self : Addr) (r : Option Addr)
  | allocateResult (self : Addr)
  deriving DecidableEq, Repr

/-- Run one client call. `newResult` is the client evaluating
`SharedPtr<Result>(new Result())`; `setResult` is given only a handle the client can hold
(`validHandle`), the member function itself checks nothing. -/
def step (alloc : Allocate) (w : World) : Op → Option World
  | .newBatch fp m => (Batch.new fp m w).map Prod.fst
  | .copyBatch other => (Batch.copy w other).map Prod.fst
  | .clone self => (Batch.clone w self).map Prod.fst
  | .newResult => some { w with results := w.results ++ [Result.new] }
  | .inputSet self id v => Batch.inputSet w self id v
  | .setResult self r => if validHandle w r then Batch.setResult w self r else none
  | .allocateResult self => Batch.allocateResult alloc w self

/-- Run a sequence of client calls, stopping at the first one that faults. -/
def run (alloc : Allocate) : World → List Op → Option World
  | w, [] => some w
  | w, op :: ops =>
    match step alloc w op with
    | none => none
    | some w1 => run alloc w1 ops

/-- A store some client program produces from the empty store. -/
def Reachable (alloc : Allocate) (w : World) : Prop :=
  ∃ ops, run alloc World.empty ops = some w

/-- The batch a client call acts on, for the calls that change an existing layer. -/
def Op.target : Op → Option Addr
  | .inputSet self _ _ => some self
  | .setResult self _ => some self
  | .allocateResult self => some self
  | _ => none

/-- The handle a call installs as the `Result` of `self`, if it is a `setResult` on `self`. -/
def Op.setsResult (self : Addr) : Op → Option (Option Addr)
  | .setResult s r => if s = self then some r else none
  | _ => none

/-- The argument of the last `setResult` call made on `self` in a sequence of calls. -/
def lastSetResult (self : Addr) : List Op → Option (Option Addr)
  | [] => none
  | op :: ops =>
    match lastSetResult self ops with
    | some r => some r
    | none => op.setsResult self

/-- The `_res` member of the `Batch` at `self`: the active-result pointer the container
reads. -/
def Batch.resPtr (w : World) (self : Addr) : Option (Option Addr) :=
  match w.batches[self]? with
  | none => none
  | some b => some b._res

/-- The `_in` member of the `Batch` at `self`: the input pointer the framework reads. -/
def Batch.inPtr (w : World) (self : Addr) : Option (Option InputPtr) :=
  match w.batches[self]? with
  | none => none
  | some b => some b._in

/-- Modelled from the spec: `Result::allocate` of the backward abs layer, declared in
`abs_layer_backward_types.h`, which is not among the sources. The spec has it size the
gradient slot to the shape of the forward pass's original input, which arrives through
`inputFromForward`, and report a configuration error when that slot is absent, leaving no
partially sized tensor behind. -/
def Result.allocate : Allocate := fun _ input _ _ r =>
  match input.get InputId.inputFromForward with
  | none => { r with status := Status.configurationError }
  | some t => { gradient := some t.dims, status := Status.ok }

/-- What holds of the `Batch` `b` stored at `self` in every store a client can produce:
`_in` points to its own `input`, `_result` is empty or points to an existing `Result`,
`_res` is null or equals `_result.get()`, and `_ac` points to a container of the same
instantiation built from its own environment. -/
def BatchOk (w : World) (self : Addr) (b : Batch) : Prop :=
  b._in = some ⟨self⟩ ∧
  (∀ r, b._result = some r → r < w.results.length) ∧
  (b._res = none ∨ b._res = SharedPtr.get b._result) ∧
  (∃ c, b._ac = some c ∧ w.containers[c]? = some ⟨b.fpType, b.method, self⟩)

/-- Every `Batch` of the store satisfies `BatchOk`. -/
def Inv (w : World) : Prop :=
  ∀ self b, w.batches[self]? = some b → BatchOk w self b

/-- The two shapes of a constructor call: it appends one `Batch`, one empty `Result` and
one container, and links the new `Batch` to them. -/
def Appended (w w1 : World) (nb : Batch) : Prop :=
  w1.batches = w.batches ++ [nb] ∧
  w1.results = w.results ++ [Result.new] ∧
  w1.containers = w.containers ++ [⟨nb.fpType, nb.method, w.batches.length⟩] ∧
  nb._ac = some w.containers.length ∧
  nb._in = some ⟨w.batches.length⟩ ∧
  nb._res = none ∧
  nb._result = some w.results.length

/-- The shape of a call on an existing `Batch` at `a`: only that `Batch` is replaced, no
object is created, and of its members only `input`, `_result` and `_res` can change. -/
def Updated (w w1 : World) (op : Op) (a : Addr) (b b1 : Batch) : Prop :=
  w.batches[a]? = some b ∧
  w1.batches = w.batches.set a b1 ∧
  op.target = some a ∧
  w1.containers = w.containers ∧
  w1.results.length = w.results.length ∧
  b1.fpType = b.fpType ∧ b1.method = b.method ∧ b1._in = b._in ∧ b1._ac = b._ac ∧
  ((b1._result = b._result ∧ (b1._res = b._res ∨ b1._res = SharedPtr.get b1._result) ∧
      ∀ r, op ≠ Op.setResult a r) ∨
   (∃ r, op = Op.setResult a r ∧ validHandle w r = true ∧ b1._result = r ∧
      b1._res = SharedPtr.get r))

/-! ## A small client program, used to exercise the theorems -/

/-- A client that builds a layer, fills both input slots, installs its own `Result` and
allocates it. -/
def demoOps : List Op :=
  [Op.newBatch FPType.float defaultDense,
   Op.inputSet 0 InputId.inputGradient (some ⟨1, [1, 3]⟩),
   Op.inputSet 0 InputId.inputFromForward (some ⟨2, [1, 3]⟩),
   Op.newResult,
   Op.setResult 0 (some 1),
   Op.allocateResult 0]

/-- The layer `demoOps` leaves at address 0. -/
def demoBatch : Batch :=
  { fpType := FPType.float, method := 0,
    input := ⟨some ⟨1, [1, 3]⟩, some ⟨2, [1, 3]⟩⟩,
    _ac := some 0, _in := some ⟨0⟩, _res := some 1, _result := some 1 }

/-- The store `demoOps` leaves. -/
def demoWorld : World :=
  { batches := [demoBatch],
    results := [⟨none, Status.ok⟩, ⟨some [1, 3], Status.ok⟩],
    containers := [⟨FPType.float, 0, 0⟩] }

/-- The store `demoOps` is in before its last call, `allocateResult()`. -/
def stagedWorld : World :=
  { batches := [demoBatch],
    results := [⟨none, Status.ok⟩, ⟨none, Status.ok⟩],
    containers := [⟨FPType.float, 0, 0⟩] }

/-- A layer as the default constructor leaves it, at address 0 of `newWorld`. -/
def newBatch : Batch :=
  { fpType := FPType.float, method := 0, input := Input.empty,
    _ac := some 0, _in := some ⟨0⟩, _res := none, _result := some 0 }

/-- The store after `Batch<float, defaultDense>()` in the empty store. -/
def newWorld : World :=
  { batches := [newBatch], results := [Result.new], containers := [⟨FPType.float, 0, 0⟩] }

/-- The store after `Batch<float, defaultDense>()` and `setResult` with an empty handle. -/
def nullResultWorld : World :=
  { batches := [{ newBatch with _result := none }],
    results := [Result.new], containers := [⟨FPType.float, 0, 0⟩] }

/-- The store after `Batch<float, defaultDense>()` and `allocateResult()`, with the
allocation of `Result.allocate`. -/
def failedWorld : World :=
  { batches := [{ newBatch with _res := some 0 }],
    results := [⟨none, Status.configurationError⟩], containers := [⟨FPType.float, 0, 0⟩] }

/-! ## Closed forms of the constructors -/

theorem set_length_append {α : Type} (l : List α) (x y : α) :
    (l ++ [x]).set l.length y = l ++ [y] := by
  induction l with
  | nil => rfl
  | cons a l ih => simp [List.set, ih]

theorem getElem?_length_append {α : Type} (l : List α) (x : α) :
    (l ++ [x])[l.length]? = some x := by
  induction l with
  | nil => rfl
  | cons a l ih => simp

theorem getElem?_append_of_some {α : Type} (l : List α) (x b : α) (i : Nat)
    (h : l[i]? = some b) : (l ++ [x])[i]? = some b := by
  induction l generalizing i with
  | nil => simp at h
  | cons a l ih =>
    cases i with
    | zero => simpa using h
    | succ i => simpa using ih i (by simpa using h)

theorem lt_length_of_getElem? {α : Type} (l : List α) (b : α) (i : Nat)
    (h : l[i]? = some b) : i < l.length := by
  by_contra hn
  have : l[i]? = none := List.getElem?_eq_none (Nat.le_of_not_lt hn)
  rw [this] at h
  cases h

theorem getElem?_set_self_of_some {α : Type} (l : List α) (b c : α) (i : Nat)
    (h : l[i]? = some b) : (l.set i c)[i]? = some c := by
  induction l generalizing i with
  | nil => simp at h
  | cons a l ih =>
    cases i with
    | zero => simp
    | succ i => simpa using ih i (by simpa using h)

theorem getElem?_set_of_ne {α : Type} (l : List α) (c : α) (i j : Nat)
    (h : i ≠ j) : (l.set i c)[j]? = l[j]? := by
  induction l generalizing i j with
  | nil => simp
  | cons a l ih =>
    cases i with
    | zero =>
      cases j with
      | zero => exact absurd rfl h
      | succ j => simp
    | succ i =>
      cases j with
      | zero => simp
      | succ j => simpa using ih i j (fun e => h (by rw [e]))

/-- The store and address the default constructor produces. -/
theorem Batch.new_eq (fp : FPType) (m : Method) (w : World) :
    Batch.new fp m w =
      some ({ batches := w.batches ++
                [{ fpType := fp, method := m, input := Input.empty,
                   _ac := some w.containers.length, _in := some ⟨w.batches.length⟩,
                   _res := none, _result := some w.results.length }],
              results := w.results ++ [Result.new],
              containers := w.containers ++ [⟨fp, m, w.batches.length⟩] },
            w.batches.length) := by
  simp [Batch.new, Batch.initialize, getElem?_length_append, set_length_append, Batch.base]

/-- The store and address the copy constructor produces from a live `other`. -/
theorem Batch.copy_eq (w : World) (other : Addr) (o : Batch)
    (h : w.batches[other]? = some o) :
    Batch.copy w other =
      some ({ batches := w.batches ++
                [{ fpType := o.fpType, method := o.method,
                   input := ⟨o.input.inputGradient, o.input.inputFromForward⟩,
                   _ac := some w.containers.length, _in := some ⟨w.batches.length⟩,
                   _res := none, _result := some w.results.length }],
              results := w.results ++ [Result.new],
              containers := w.containers ++ [⟨o.fpType, o.method, w.batches.length⟩] },
            w.batches.length) := by
  simp [Batch.copy, h, Batch.initialize, getElem?_length_append, set_length_append,
    Batch.inputGet, Batch.inputSet, World.putBatch, getElem?_append_of_some _ _ _ _ h,
    Batch.base, Input.get, Input.set, Input.empty]

/-! ## Closed forms of the member functions -/

theorem Batch.inputSet_eq (w : World) (self : Addr) (b : Batch) (id : InputId) (v : TensorPtr)
    (h : w.batches[self]? = some b) :
    Batch.inputSet w self id v =
      some { w with batches := w.batches.set self { b with input := b.input.set id v } } := by
  simp [Batch.inputSet, h, World.putBatch]

theorem Batch.setResult_eq (w : World) (self : Addr) (b : Batch) (r : Option Addr)
    (h : w.batches[self]? = some b) :
    Batch.setResult w self r =
      some { w with batches := w.batches.set self { b with _result := r, _res := r } } := by
  simp [Batch.setResult, h, World.putBatch, SharedPtr.get]

theorem Batch.allocateResult_eq (alloc : Allocate) (w : World) (self r : Addr) (b : Batch)
    (obj : Result) (h : w.batches[self]? = some b) (hr : b._result = some r)
    (ho : w.results[r]? = some obj) :
    Batch.allocateResult alloc w self =
      some { w with
        results := w.results.set r (alloc b.fpType b.input none b.method obj),
        batches := w.batches.set self { b with _res := some r } } := by
  simp [Batch.allocateResult, h, hr, ho, SharedPtr.get]

/-- A call that returns was made on a live `Batch` with a live `Result`. -/
theorem Batch.allocateResult_some (alloc : Allocate) (w w1 : World) (self : Addr)
    (h : Batch.allocateResult alloc w self = some w1) :
    ∃ b r obj, w.batches[self]? = some b ∧ b._result = some r ∧ w.results[r]? = some obj := by
  unfold Batch.allocateResult at h
  cases hb : w.batches[self]? with
  | none => simp [hb] at h
  | some b =>
    cases hr : b._result with
    | none => simp [hb, hr] at h
    | some r =>
      cases ho : w.results[r]? with
      | none => simp [hb, hr, ho] at h
      | some obj => exact ⟨b, r, obj, rfl, hr, ho⟩

theorem getElem?_append_singleton_cases {α : Type} (l : List α) (x b : α) (i : Nat)
    (h : (l ++ [x])[i]? = some b) :
    (i < l.length ∧ l[i]? = some b) ∨ (i = l.length ∧ b = x) := by
  rcases Nat.lt_trichotomy i l.length with hlt | heq | hgt
  · left
    refine ⟨hlt, ?_⟩
    rw [List.getElem?_append_left hlt] at h
    exact h
  · right
    subst heq
    rw [getElem?_length_append] at h
    exact ⟨rfl, (Option.some.inj h).symm⟩
  · exfalso
    have : (l ++ [x])[i]? = none := by
      apply List.getElem?_eq_none
      simp
      omega
    rw [this] at h
    cases h

theorem getElem?_set_cases {α : Type} (l : List α) (c b : α) (i j : Nat)
    (h : (l.set i c)[j]? = some b) :
    (j = i ∧ b = c) ∨ (j ≠ i ∧ l[j]? = some b) := by
  by_cases hji : j = i
  · left
    subst hji
    have hlt : j < l.length := by
      have := lt_length_of_getElem? _ _ _ h
      simpa using this
    have hsome : l[j]? = some l[j] := List.getElem?_eq_getElem hlt
    rw [getElem?_set_self_of_some l _ c j hsome] at h
    exact ⟨rfl, (Option.some.inj h).symm⟩
  · right
    refine ⟨hji, ?_⟩
    rw [getElem?_set_of_ne l c i j (fun e => hji e.symm)] at h
    exact h

/-! ## What one client call does to the store -/

theorem Batch.copy_some (w w1 : World) (other c : Addr)
    (h : Batch.copy w other = some (w1, c)) : ∃ o, w.batches[other]? = some o := by
  cases ho : w.batches[other]? with
  | none => simp [Batch.copy, ho] at h
  | some o => exact ⟨o, rfl⟩

theorem step_cases (alloc : Allocate) (w w1 : World) (op : Op)
    (h : step alloc w op = some w1) :
    (∃ nb, Appended w w1 nb ∧ op.target = none) ∨
    (w1 = { w with results := w.results ++ [Result.new] } ∧ op = Op.newResult) ∨
    (∃ a b b1, Updated w w1 op a b b1) := by
  cases op with
  | newBatch fp m =>
    left
    simp only [step, Batch.new_eq, Option.map_some'] at h
    cases h
    exact ⟨_, ⟨rfl, rfl, rfl, rfl, rfl, rfl, rfl⟩, rfl⟩
  | copyBatch other =>
    left
    cases hc : Batch.copy w other with
    | none => simp [step, hc] at h
    | some p =>
      obtain ⟨o, ho⟩ := Batch.copy_some w p.1 other p.2 hc
      simp only [step, Batch.copy_eq w other o ho, Option.map_some'] at h
      cases h
      exact ⟨_, ⟨rfl, rfl, rfl, rfl, rfl, rfl, rfl⟩, rfl⟩
  | clone self =>
    left
    cases hc : Batch.copy w self with
    | none => simp [step, Batch.clone, Batch.cloneImpl, hc] at h
    | some p =>
      obtain ⟨o, ho⟩ := Batch.copy_some w p.1 self p.2 hc
      simp only [step, Batch.clone, Batch.cloneImpl, Batch.copy_eq w self o ho,
        Option.map_some'] at h
      cases h
      exact ⟨_, ⟨rfl, rfl, rfl, rfl, rfl, rfl, rfl⟩, rfl⟩
  | newResult =>
    right; left
    simp only [step] at h
    cases h
    exact ⟨rfl, rfl⟩
  | inputSet self id v =>
    right; right
    cases hb : w.batches[self]? with
    | none => simp [step, Batch.inputSet, hb] at h
    | some b =>
      simp only [step, Batch.inputSet_eq w self b id v hb] at h
      cases h
      exact ⟨self, b, _, hb, rfl, rfl, rfl, rfl, rfl, rfl, rfl, rfl,
        Or.inl ⟨rfl, Or.inl rfl, fun r e => by cases e⟩⟩
  | setResult self r =>
    right; right
    cases hb : w.batches[self]? with
    | none =>
      simp only [step, Batch.setResult, hb] at h
      split at h <;> cases h
    | some b =>
      simp only [step, Batch.setResult_eq w self b r hb] at h
      split at h
      · rename_i hv
        cases h
        exact ⟨self, b, _, hb, rfl, rfl, rfl, rfl, rfl, rfl, rfl, rfl,
          Or.inr ⟨r, rfl, hv, rfl, rfl⟩⟩
      · cases h
  | allocateResult self =>
    right; right
    obtain ⟨b, r, obj, hb, hr, ho⟩ := Batch.allocateResult_some alloc w w1 self h
    simp only [step, Batch.allocateResult_eq alloc w self r b obj hb hr ho] at h
    cases h
    refine ⟨self, b, _, hb, rfl, rfl, rfl, ?_, rfl, rfl, rfl, rfl,
      Or.inl ⟨rfl, Or.inr ?_, fun r e => by cases e⟩⟩
    · simp
    · simp [SharedPtr.get, hr]

/-! ## Invariant of the stores a client can produce -/

theorem BatchOk.mono (w w1 : World) (a : Addr) (b : Batch) (h : BatchOk w a b)
    (hr : w.results.length ≤ w1.results.length)
    (hc : ∀ (c : Nat) (x : BatchContainer), w.containers[c]? = some x → w1.containers[c]? = some x) :
    BatchOk w1 a b := by
  obtain ⟨h1, h2, h3, c, h4, h5⟩ := h
  exact ⟨h1, fun r e => Nat.lt_of_lt_of_le (h2 r e) hr, h3, c, h4, hc c _ h5⟩

theorem Inv_empty : Inv World.empty := by
  intro a b h
  simp [World.empty] at h

theorem Inv_step (alloc : Allocate) (w w1 : World) (op : Op) (hw : Inv w)
    (h : step alloc w op = some w1) : Inv w1 := by
  rcases step_cases alloc w w1 op h with ⟨nb, hA, _⟩ | ⟨rfl, _⟩ | ⟨a, b, b1, hU⟩
  · obtain ⟨hb, hr, hc, hac, hin, hres, hresult⟩ := hA
    have hlen : w.results.length ≤ w1.results.length := by rw [hr]; simp
    have hcont : ∀ (c : Nat) (x : BatchContainer),
        w.containers[c]? = some x → w1.containers[c]? = some x := by
      intro c x hx
      rw [hc]
      exact getElem?_append_of_some _ _ _ _ hx
    intro s x hx
    rw [hb] at hx
    rcases getElem?_append_singleton_cases _ _ _ _ hx with ⟨_, hold⟩ | ⟨rfl, rfl⟩
    · exact BatchOk.mono w w1 s x (hw s x hold) hlen hcont
    · refine ⟨hin, ?_, Or.inl hres, w.containers.length, hac, ?_⟩
      · intro r e
        rw [hresult] at e
        cases e
        rw [hr]
        simp
      · rw [hc]
        exact getElem?_length_append _ _
  · intro s x hx
    exact BatchOk.mono w _ s x (hw s x hx) (by simp) (fun c y hy => hy)
  · obtain ⟨hb, hbs, _, hc, hr, _, hm, hin, hac, hres⟩ := hU
    intro s x hx
    rw [hbs] at hx
    rcases getElem?_set_cases _ _ _ _ _ hx with ⟨rfl, rfl⟩ | ⟨_, hold⟩
    · obtain ⟨k1, k2, k3, c, k4, k5⟩ := hw s b hb
      have hcont : w1.containers[c]? = some ⟨x.fpType, x.method, s⟩ := by
        rw [hc, k5]
        simp [*]
      refine ⟨by rw [hin]; exact k1, ?_, ?_, c, by rw [hac]; exact k4, hcont⟩
      · intro r e
        rw [hr]
        rcases hres with ⟨e1, _, _⟩ | ⟨r1, _, hv, e1, _⟩
        · exact k2 r (by rw [← e1]; exact e)
        · rw [e1] at e
          subst e
          simpa [validHandle] using hv
      · rcases hres with ⟨e1, e2 | e2, _⟩ | ⟨r1, _, _, e1, e2⟩
        · rcases k3 with k3 | k3
          · left; rw [e2]; exact k3
          · right; rw [e2, e1]; exact k3
        · right; exact e2
        · right; rw [e2, e1]
    · exact BatchOk.mono w w1 s x (hw s x hold) (Nat.le_of_eq hr.symm)
        (fun c y hy => by rw [hc]; exact hy)

theorem Inv_run (alloc : Allocate) (ops : List Op) (w w1 : World) (hw : Inv w)
    (h : run alloc w ops = some w1) : Inv w1 := by
  induction ops generalizing w with
  | nil =>
    simp only [run] at h
    cases h
    exact hw
  | cons op ops ih =>
    simp only [run] at h
    cases hs : step alloc w op with
    | none => simp [hs] at h
    | some w2 =>
      simp only [hs] at h
      exact ih w2 (Inv_step alloc w w2 op hw hs) h

theorem Inv_of_Reachable (alloc : Allocate) (w : World) (h : Reachable alloc w) : Inv w := by
  obtain ⟨ops, hops⟩ := h
  exact Inv_run alloc ops World.empty w Inv_empty hops

/-! ## What a sequence of client calls keeps -/

theorem setsResult_of_target_none (a : Addr) (op : Op) (h : op.target = none) :
    op.setsResult a = none := by
  cases op <;> simp [Op.target] at h <;> rfl

theorem setsResult_of_target_ne (a x : Addr) (op : Op) (h : op.target = some x) (hne : x ≠ a) :
    op.setsResult a = none := by
  cases op <;> simp [Op.target] at h <;> try rfl
  subst h
  simp [Op.setsResult, hne]

/-- One call keeps every live `Batch` live, keeps its template arguments, `_in` and `_ac`,
and changes `_result` only when the call is a `setResult` on it. -/
theorem step_keeps (alloc : Allocate) (w w1 : World) (op : Op) (a : Addr) (b : Batch)
    (h : step alloc w op = some w1) (hb : w.batches[a]? = some b) :
    ∃ b1, w1.batches[a]? = some b1 ∧ b1.method = b.method ∧ b1.fpType = b.fpType ∧
      b1._in = b._in ∧ b1._ac = b._ac ∧
      b1._result = (op.setsResult a).getD b._result := by
  rcases step_cases alloc w w1 op h with ⟨nb, hA, ht⟩ | ⟨rfl, rfl⟩ | ⟨x, c, c1, hU⟩
  · refine ⟨b, ?_, rfl, rfl, rfl, rfl, ?_⟩
    · rw [hA.1]
      exact getElem?_append_of_some _ _ _ _ hb
    · rw [setsResult_of_target_none a op ht]
      rfl
  · exact ⟨b, hb, rfl, rfl, rfl, rfl, rfl⟩
  · obtain ⟨hc, hbs, ht, _, _, hfp, hm, hin, hac, hres⟩ := hU
    by_cases hxa : x = a
    · subst hxa
      rw [hb] at hc
      cases hc
      refine ⟨c1, ?_, hm, hfp, hin, hac, ?_⟩
      · rw [hbs]
        exact getElem?_set_self_of_some _ _ _ _ hb
      · rcases hres with ⟨e1, _, hno⟩ | ⟨r, rfl, _, e1, _⟩
        · have : op.setsResult x = none := by
            cases op <;> simp [Op.target] at ht <;> try rfl
            subst ht
            exact absurd rfl (hno _)
          rw [this, e1]
          rfl
        · simp [Op.setsResult, e1]
    · refine ⟨b, ?_, rfl, rfl, rfl, rfl, ?_⟩
      · rw [hbs, getElem?_set_of_ne _ _ _ _ hxa]
        exact hb
      · rw [setsResult_of_target_ne a x op ht hxa]
        rfl

theorem getD_lastSetResult_cons (a : Addr) (op : Op) (ops : List Op) (h : Option Addr) :
    (lastSetResult a (op :: ops)).getD h =
      (lastSetResult a ops).getD ((op.setsResult a).getD h) := by
  simp only [lastSetResult]
  cases lastSetResult a ops with
  | none => rfl
  | some r => rfl

/-- A sequence of calls keeps every live `Batch` live, keeps its template arguments, `_in`
and `_ac`, and leaves in `_result` the argument of the last `setResult` made on it. -/
theorem run_keeps (alloc : Allocate) (ops : List Op) (w w2 : World) (a : Addr) (b : Batch)
    (h : run alloc w ops = some w2) (hb : w.batches[a]? = some b) :
    ∃ b2, w2.batches[a]? = some b2 ∧ b2.method = b.method ∧ b2.fpType = b.fpType ∧
      b2._in = b._in ∧ b2._ac = b._ac ∧
      b2._result = (lastSetResult a ops).getD b._result := by
  induction ops generalizing w b with
  | nil =>
    simp only [run] at h
    cases h
    exact ⟨b, hb, rfl, rfl, rfl, rfl, rfl⟩
  | cons op ops ih =>
    simp only [run] at h
    cases hs : step alloc w op with
    | none => simp [hs] at h
    | some w1 =>
      simp only [hs] at h
      obtain ⟨b1, hb1, m1, f1, i1, a1, r1⟩ := step_keeps alloc w w1 op a b hs hb
      obtain ⟨b2, hb2, m2, f2, i2, a2, r2⟩ := ih w1 b1 h hb1
      refine ⟨b2, hb2, m2.trans m1, f2.trans f1, i2.trans i1, a2.trans a1, ?_⟩
      rw [r2, r1, getD_lastSetResult_cons]

/-- A call made on one `Batch` leaves every other `Batch` as it was. -/
theorem step_frame (alloc : Allocate) (w w1 : World) (op : Op) (c b : Addr)
    (ht : op.target = some c) (hne : c ≠ b) (h : step alloc w op = some w1) :
    w1.batches[b]? = w.batches[b]? := by
  rcases step_cases alloc w w1 op h with ⟨nb, _, ht1⟩ | ⟨_, rfl⟩ | ⟨x, d, d1, hU⟩
  · rw [ht] at ht1
    cases ht1
  · simp [Op.target] at ht
  · obtain ⟨_, hbs, ht1, _⟩ := hU
    rw [ht] at ht1
    cases ht1
    rw [hbs]
    exact getElem?_set_of_ne _ _ _ _ hne

theorem run_frame (alloc : Allocate) (ops : List Op) (w w2 : World) (c b : Addr)
    (ht : ∀ op ∈ ops, op.target = some c) (hne : c ≠ b)
    (h : run alloc w ops = some w2) :
    w2.batches[b]? = w.batches[b]? := by
  induction ops generalizing w with
  | nil =>
    simp only [run] at h
    cases h
    rfl
  | cons op ops ih =>
    simp only [run] at h
    cases hs : step alloc w op with
    | none => simp [hs] at h
    | some w1 =>
      simp only [hs] at h
      rw [ih w1 (fun o ho => ht o (List.mem_cons_of_mem _ ho)) h]
      exact step_frame alloc w w1 op c b (ht op (List.mem_cons_self _ _)) hne hs

/-! ## The example program -/

theorem demoWorld_run : run Result.allocate World.empty demoOps = some demoWorld := by
  decide

theorem demoWorld_reachable : Reachable Result.allocate demoWorld :=
  ⟨demoOps, demoWorld_run⟩

theorem newWorld_new :
    Batch.new FPType.float defaultDense World.empty = some (newWorld, 0) := by
  decide

/-! ## Cloning -/

/-- C1: for every live `Batch` `b`, whatever its two input slots hold, `clone()` returns,
builds exactly what the copy constructor builds, and the new `Batch` has in each input
slot (`inputGradient`, `inputFromForward`) the handle `b` has in that slot; the slots of
`b` are as before. -/
theorem clone_copies_input (w : World) (self : Addr) (b : Batch)
    (h : w.batches[self]? = some b) :
    ∃ w1 c, Batch.clone w self = some (w1, c) ∧ Batch.copy w self = some (w1, c) ∧
      Batch.inputGet w1 c InputId.inputGradient = some b.input.inputGradient ∧
      Batch.inputGet w1 c InputId.inputFromForward = some b.input.inputFromForward ∧
      ∀ id, Batch.inputGet w1 c id = Batch.inputGet w self id ∧
        Batch.inputGet w1 self id = Batch.inputGet w self id := by
  refine ⟨_, _, ?_, Batch.copy_eq w self b h, ?_, ?_, ?_⟩
  · simp only [Batch.clone, Batch.cloneImpl]
    exact Batch.copy_eq w self b h
  · simp [Batch.inputGet, getElem?_length_append, Input.get]
  · simp [Batch.inputGet, getElem?_length_append, Input.get]
  · intro id
    constructor
    · cases id <;> simp [Batch.inputGet, getElem?_length_append, Input.get, h]
    · simp [Batch.inputGet, getElem?_append_of_some _ _ _ _ h, h]

theorem clone_copies_input_witness :
    demoWorld.batches[0]? = some demoBatch ∧
    ∃ w1 c, Batch.clone demoWorld 0 = some (w1, c) ∧ Batch.copy demoWorld 0 = some (w1, c) ∧
      Batch.inputGet w1 c InputId.inputGradient = some demoBatch.input.inputGradient ∧
      Batch.inputGet w1 c InputId.inputFromForward = some demoBatch.input.inputFromForward ∧
      ∀ id, Batch.inputGet w1 c id = Batch.inputGet demoWorld 0 id ∧
        Batch.inputGet w1 0 id = Batch.inputGet demoWorld 0 id :=
  ⟨rfl, clone_copies_input demoWorld 0 demoBatch rfl⟩

/-- C2: for every live `Batch` `b` of a store a client can produce (newly constructed,
after `setResult`, after `allocateResult`), `clone()` and the copy constructor return a
`Batch` whose `Result` handle is non-empty and points to an object that did not exist
before, is empty (as `new Result()` leaves it), differs from the handle `b.getResult()`
returns before and after, and is held by no other `Batch`. -/
theorem clone_result_is_new (alloc : Allocate) (w : World) (self : Addr) (b : Batch)
    (hw : Reachable alloc w) (h : w.batches[self]? = some b) :
    ∃ w1 c, Batch.clone w self = some (w1, c) ∧ Batch.copy w self = some (w1, c) ∧
      Batch.getResult w1 c = some (some w.results.length) ∧
      w.results[w.results.length]? = none ∧
      w1.results[w.results.length]? = some Result.new ∧
      Batch.getResult w self = some b._result ∧
      Batch.getResult w1 self = some b._result ∧
      b._result ≠ some w.results.length ∧
      ∀ a x, w1.batches[a]? = some x → a ≠ c → x._result ≠ some w.results.length := by
  have hinv := Inv_of_Reachable alloc w hw
  refine ⟨_, _, ?_, Batch.copy_eq w self b h, ?_, ?_, ?_, ?_, ?_, ?_, ?_⟩
  · simp only [Batch.clone, Batch.cloneImpl]
    exact Batch.copy_eq w self b h
  · simp [Batch.getResult, getElem?_length_append]
  · exact List.getElem?_eq_none (Nat.le_refl _)
  · exact getElem?_length_append _ _
  · simp [Batch.getResult, h]
  · simp [Batch.getResult, getElem?_append_of_some _ _ _ _ h]
  · intro e
    exact Nat.lt_irrefl _ ((hinv self b h).2.1 _ e)
  · intro a x hx hne e
    rcases getElem?_append_singleton_cases _ _ _ _ hx with ⟨_, hold⟩ | ⟨rfl, _⟩
    · exact Nat.lt_irrefl _ ((hinv a x hold).2.1 _ e)
    · exact hne rfl

theorem clone_result_is_new_witness :
    Reachable Result.allocate demoWorld ∧ demoWorld.batches[0]? = some demoBatch ∧
    ∃ w1 c, Batch.clone demoWorld 0 = some (w1, c) ∧ Batch.copy demoWorld 0 = some (w1, c) ∧
      Batch.getResult w1 c = some (some demoWorld.results.length) ∧
      demoWorld.results[demoWorld.results.length]? = none ∧
      w1.results[demoWorld.results.length]? = some Result.new ∧
      Batch.getResult demoWorld 0 = some demoBatch._result ∧
      Batch.getResult w1 0 = some demoBatch._result ∧
      demoBatch._result ≠ some demoWorld.results.length ∧
      ∀ a x, w1.batches[a]? = some x → a ≠ c → x._result ≠ some demoWorld.results.length :=
  ⟨demoWorld_reachable, rfl,
    clone_result_is_new Result.allocate demoWorld 0 demoBatch demoWorld_reachable rfl⟩

/-- C3: for every live `Batch` `b`, `clone()` returns a `Batch` at another address `c` and
leaves `b` as it was; the `_in` pointer of the clone is the address of the clone's own
`input`, which is not the address of the source's; any sequence of `input.set`,
`setResult` and `allocateResult` calls on `c` leaves the whole object `b` (input slots,
`_result`, `_in`, `_res`) unchanged, and any such sequence on `b` leaves the whole object
`c` unchanged. -/
theorem clone_no_shared_state (alloc : Allocate) (w : World) (b : Addr) (B : Batch)
    (h : w.batches[b]? = some B) :
    ∃ w1 c, Batch.clone w b = some (w1, c) ∧ c ≠ b ∧
      w1.batches[b]? = some B ∧
      Batch.inPtr w1 c = some (Batch.getLayerInput w1 c) ∧
      Batch.getLayerInput w1 c = some ⟨c⟩ ∧
      Batch.getLayerInput w1 c ≠ Batch.getLayerInput w1 b ∧
      (∀ ops w2, (∀ op ∈ ops, op.target = some c) → run alloc w1 ops = some w2 →
        w2.batches[b]? = some B) ∧
      (∀ ops w2, (∀ op ∈ ops, op.target = some b) → run alloc w1 ops = some w2 →
        w2.batches[c]? = w1.batches[c]?) := by
  have hlt : b < w.batches.length := lt_length_of_getElem? _ _ _ h
  have hne : w.batches.length ≠ b := Nat.ne_of_gt hlt
  have hb1 : ∀ x : Batch, (w.batches ++ [x])[b]? = some B :=
    fun x => getElem?_append_of_some _ _ _ _ h
  have hclone := Batch.copy_eq w b B h
  refine ⟨_, _, hclone, hne, ?_, ?_, ?_, ?_, ?_, ?_⟩
  · exact hb1 _
  · simp [Batch.inPtr, Batch.getLayerInput, getElem?_length_append]
  · simp [Batch.getLayerInput, getElem?_length_append]
  · simp [Batch.getLayerInput, getElem?_length_append, hb1, hne]
  · intro ops w2 ht hrun
    rw [run_frame alloc ops _ w2 _ b ht hne hrun]
    exact hb1 _
  · intro ops w2 ht hrun
    exact run_frame alloc ops _ w2 b _ ht hne.symm hrun

theorem clone_no_shared_state_witness :
    demoWorld.batches[0]? = some demoBatch ∧
    ∃ w1 c, Batch.clone demoWorld 0 = some (w1, c) ∧ c ≠ 0 ∧
      w1.batches[0]? = some demoBatch ∧
      Batch.inPtr w1 c = some (Batch.getLayerInput w1 c) ∧
      Batch.getLayerInput w1 c = some ⟨c⟩ ∧
      Batch.getLayerInput w1 c ≠ Batch.getLayerInput w1 0 ∧
      (∀ ops w2, (∀ op ∈ ops, op.target = some c) → run Result.allocate w1 ops = some w2 →
        w2.batches[0]? = some demoBatch) ∧
      (∀ ops w2, (∀ op ∈ ops, op.target = some 0) → run Result.allocate w1 ops = some w2 →
        w2.batches[c]? = w1.batches[c]?) :=
  ⟨rfl, clone_no_shared_state Result.allocate demoWorld 0 demoBatch rfl⟩

/-! ## The result of the layer -/

/-- C4: for every live `Batch` and every handle `r` to an existing `Result`,
`setResult(r)` followed by `allocateResult()` returns, runs `allocate` on the object `r`
points to (with `&input`, a null parameter and the method), creates no `Result`, leaves
all other `Result` objects alone, and afterwards `getResult()` and `getLayerResult()`
return `r` and `_res` points to the object of `r`. -/
theorem setResult_then_allocateResult (alloc : Allocate) (w : World) (self r : Addr)
    (b : Batch) (obj : Result) (h : w.batches[self]? = some b)
    (hr : w.results[r]? = some obj) :
    ∃ w1 w2, Batch.setResult w self (some r) = some w1 ∧
      Batch.allocateResult alloc w1 self = some w2 ∧
      w2.results = w.results.set r (alloc b.fpType b.input none b.method obj) ∧
      w2.results.length = w.results.length ∧
      Batch.getResult w2 self = some (some r) ∧
      Batch.getLayerResult w2 self = some (some r) ∧
      Batch.resPtr w2 self = some (some r) := by
  have h1 : (w.batches.set self { b with _result := some r, _res := some r })[self]? =
      some { b with _result := some r, _res := some r } :=
    getElem?_set_self_of_some _ _ _ _ h
  have hset : ∀ c : Batch, (w.batches.set self c)[self]? = some c :=
    fun c => getElem?_set_self_of_some _ _ c _ h
  refine ⟨_, _, Batch.setResult_eq w self b (some r) h,
    Batch.allocateResult_eq alloc _ self r _ obj h1 rfl hr, rfl, by simp, ?_, ?_, ?_⟩
  · simp [Batch.getResult, hset]
  · simp [Batch.getLayerResult, hset]
  · simp [Batch.resPtr, hset]

theorem setResult_then_allocateResult_witness :
    demoWorld.batches[0]? = some demoBatch ∧
    demoWorld.results[0]? = some ⟨none, Status.ok⟩ ∧
    ∃ w1 w2, Batch.setResult demoWorld 0 (some 0) = some w1 ∧
      Batch.allocateResult Result.allocate w1 0 = some w2 ∧
      w2.results = demoWorld.results.set 0
        (Result.allocate demoBatch.fpType demoBatch.input none demoBatch.method
          ⟨none, Status.ok⟩) ∧
      w2.results.length = demoWorld.results.length ∧
      Batch.getResult w2 0 = some (some 0) ∧
      Batch.getLayerResult w2 0 = some (some 0) ∧
      Batch.resPtr w2 0 = some (some 0) :=
  ⟨rfl, rfl,
    setResult_then_allocateResult Result.allocate demoWorld 0 0 demoBatch ⟨none, Status.ok⟩
      rfl rfl⟩

/-- C5: `getResult()` and `getLayerResult()` return the same handle in every store. For a
`Batch` just built by the default or the copy constructor that handle is non-empty and
points to a new, empty `Result`; after any sequence of client calls it is the argument of
the last `setResult` made on the `Batch`, or still the handle from construction when
there was none; and a further `setResult(r)` returns with `_res` equal to `r.get()` and
both getters returning `r`. -/
theorem getResult_current (alloc : Allocate) (fp : FPType) (m : Method) (other : Addr)
    (w0 w : World) (self : Addr)
    (hc : Batch.new fp m w0 = some (w, self) ∨ Batch.copy w0 other = some (w, self)) :
    (∀ v s, Batch.getResult v s = Batch.getLayerResult v s) ∧
    Batch.getResult w self = some (some w0.results.length) ∧
    w0.results[w0.results.length]? = none ∧
    w.results[w0.results.length]? = some Result.new ∧
    ∀ ops w2, run alloc w ops = some w2 →
      Batch.getResult w2 self =
        some ((lastSetResult self ops).getD (some w0.results.length)) ∧
      ∀ r, ∃ w3, Batch.setResult w2 self r = some w3 ∧
        Batch.resPtr w3 self = some (SharedPtr.get r) ∧
        Batch.getResult w3 self = some r ∧ Batch.getLayerResult w3 self = some r := by
  have key : ∃ nb, w.batches[self]? = some nb ∧ nb._result = some w0.results.length ∧
      w.results = w0.results ++ [Result.new] := by
    rcases hc with hc | hc
    · rw [Batch.new_eq] at hc
      cases hc
      exact ⟨_, getElem?_length_append _ _, rfl, rfl⟩
    · obtain ⟨o, ho⟩ := Batch.copy_some w0 w other self hc
      rw [Batch.copy_eq w0 other o ho] at hc
      cases hc
      exact ⟨_, getElem?_length_append _ _, rfl, rfl⟩
  obtain ⟨nb, hnb, hres, hresults⟩ := key
  refine ⟨fun v s => rfl, ?_, List.getElem?_eq_none (Nat.le_refl _), ?_, ?_⟩
  · simp [Batch.getResult, hnb, hres]
  · rw [hresults]
    exact getElem?_length_append _ _
  · intro ops w2 hrun
    obtain ⟨b2, hb2, _, _, _, _, hr2⟩ := run_keeps alloc ops w w2 self nb hrun hnb
    constructor
    · simp [Batch.getResult, hb2, hr2, hres]
    · intro r
      have h3 := getElem?_set_self_of_some w2.batches b2
        { b2 with _result := r, _res := r } self hb2
      refine ⟨_, Batch.setResult_eq w2 self b2 r hb2, ?_, ?_, ?_⟩
      · simp [Batch.resPtr, h3, SharedPtr.get]
      · simp [Batch.getResult, h3]
      · simp [Batch.getLayerResult, h3]

theorem getResult_current_witness :
    (Batch.new FPType.float defaultDense World.empty = some (newWorld, 0) ∨
      Batch.copy World.empty 0 = some (newWorld, 0)) ∧
    ((∀ v s, Batch.getResult v s = Batch.getLayerResult v s) ∧
    Batch.getResult newWorld 0 = some (some World.empty.results.length) ∧
    World.empty.results[World.empty.results.length]? = none ∧
    newWorld.results[World.empty.results.length]? = some Result.new ∧
    ∀ ops w2, run Result.allocate newWorld ops = some w2 →
      Batch.getResult w2 0 =
        some ((lastSetResult 0 ops).getD (some World.empty.results.length)) ∧
      ∀ r, ∃ w3, Batch.setResult w2 0 r = some w3 ∧
        Batch.resPtr w3 0 = some (SharedPtr.get r) ∧
        Batch.getResult w3 0 = some r ∧ Batch.getLayerResult w3 0 = some r) :=
  ⟨Or.inl newWorld_new,
    getResult_current Result.allocate FPType.float defaultDense 0 World.empty newWorld 0
      (Or.inl newWorld_new)⟩

/-! ## Allocation -/

theorem Result.allocate_idem (fp : FPType) (input : Input) (par : Option Parameter)
    (method : Int) (r : Result) :
    Result.allocate fp input par method (Result.allocate fp input par method r) =
      Result.allocate fp input par method r := by
  unfold Result.allocate
  cases input.get InputId.inputFromForward <;> rfl

/-- C6: with the allocation of `Result.allocate`, a second `allocateResult()` right after a
first one that returned also returns and leaves the store exactly as the first left it
(same `Result` handle, same `_res`, same shape in the `Result`); the first call changes
neither the input slots nor the `Result` handle. For any allocation whatever, the second
call returns and leaves every `Batch` (handle and `_res` included), every container and
the number of `Result` objects as the first left them. -/
theorem allocateResult_idempotent (w w1 : World) (self : Addr)
    (h : Batch.allocateResult Result.allocate w self = some w1) :
    Batch.allocateResult Result.allocate w1 self = some w1 ∧
    (∀ id, Batch.inputGet w1 self id = Batch.inputGet w self id) ∧
    Batch.getResult w1 self = Batch.getResult w self ∧
    ∀ (alloc : Allocate) (v v1 : World), Batch.allocateResult alloc v self = some v1 →
      ∃ v2, Batch.allocateResult alloc v1 self = some v2 ∧ v2.batches = v1.batches ∧
        v2.containers = v1.containers ∧ v2.results.length = v1.results.length ∧
        Batch.getResult v2 self = Batch.getResult v1 self ∧
        Batch.resPtr v2 self = Batch.resPtr v1 self := by
  have gen : ∀ (alloc : Allocate) (v v1 : World), Batch.allocateResult alloc v self = some v1 →
      ∃ b r obj, v.batches[self]? = some b ∧ b._result = some r ∧ v.results[r]? = some obj ∧
        v1 = { v with
          results := v.results.set r (alloc b.fpType b.input none b.method obj),
          batches := v.batches.set self { b with _res := some r } } ∧
        Batch.allocateResult alloc v1 self =
          some { v1 with
            results := v1.results.set r (alloc b.fpType b.input none b.method
              (alloc b.fpType b.input none b.method obj)),
            batches := v1.batches } := by
    intro alloc v v1 hv
    obtain ⟨b, r, obj, hb, hr, ho⟩ := Batch.allocateResult_some alloc v v1 self hv
    rw [Batch.allocateResult_eq alloc v self r b obj hb hr ho] at hv
    cases hv
    refine ⟨b, r, obj, hb, hr, ho, rfl, ?_⟩
    have hb1 := getElem?_set_self_of_some v.batches b { b with _res := some r } self hb
    have ho1 := getElem?_set_self_of_some v.results obj
      (alloc b.fpType b.input none b.method obj) r ho
    rw [Batch.allocateResult_eq alloc _ self r { b with _res := some r } _ hb1 hr ho1]
    simp
  refine ⟨?_, ?_, ?_, ?_⟩
  · obtain ⟨b, r, obj, _, _, _, e1, e2⟩ := gen Result.allocate w w1 h
    rw [e2, Result.allocate_idem]
    congr 1
    rw [e1]
    simp
  · intro id
    obtain ⟨b, r, obj, hb, _, _, e1, _⟩ := gen Result.allocate w w1 h
    rw [e1]
    simp [Batch.inputGet, hb, getElem?_set_self_of_some _ _ _ _ hb]
  · obtain ⟨b, r, obj, hb, _, _, e1, _⟩ := gen Result.allocate w w1 h
    rw [e1]
    simp [Batch.getResult, hb, getElem?_set_self_of_some _ _ _ _ hb]
  · intro alloc v v1 hv
    obtain ⟨b, r, obj, _, _, _, _, e2⟩ := gen alloc v v1 hv
    refine ⟨_, e2, rfl, rfl, by simp, rfl, rfl⟩

theorem allocateResult_idempotent_witness :
    Batch.allocateResult Result.allocate stagedWorld 0 = some demoWorld ∧
    (Batch.allocateResult Result.allocate demoWorld 0 = some demoWorld ∧
    (∀ id, Batch.inputGet demoWorld 0 id = Batch.inputGet stagedWorld 0 id) ∧
    Batch.getResult demoWorld 0 = Batch.getResult stagedWorld 0 ∧
    ∀ (alloc : Allocate) (v v1 : World), Batch.allocateResult alloc v 0 = some v1 →
      ∃ v2, Batch.allocateResult alloc v1 0 = some v2 ∧ v2.batches = v1.batches ∧
        v2.containers = v1.containers ∧ v2.results.length = v1.results.length ∧
        Batch.getResult v2 0 = Batch.getResult v1 0 ∧
        Batch.resPtr v2 0 = Batch.resPtr v1 0) :=
  ⟨by decide, allocateResult_idempotent stagedWorld demoWorld 0 (by decide)⟩

/-- C7, as stated, fails: a `Batch` whose `inputFromForward` slot is absent and whose
`Result` handle was set to the empty handle is a store a client can produce, and
`allocateResult()` on it dereferences the null `_result` instead of reporting an error. -/
theorem allocateResult_null_result_faults :
    run Result.allocate World.empty
      [Op.newBatch FPType.float defaultDense, Op.setResult 0 none] = some nullResultWorld ∧
    Batch.inputGet nullResultWorld 0 InputId.inputFromForward = some none ∧
    Batch.getResult nullResultWorld 0 = some none ∧
    Batch.allocateResult Result.allocate nullResultWorld 0 = none := by
  decide

/-- C7, amended: for every live `Batch` whose `inputFromForward` slot is absent and whose
`Result` handle points to an existing `Result`, `allocateResult()` with the allocation of
`Result.allocate` returns, and the `Result` then records a configuration error (its
gradient slot is as before); the handle `getResult()` returns is unchanged. -/
theorem allocateResult_reports_missing_input (w : World) (self r : Addr) (b : Batch)
    (obj : Result) (h : w.batches[self]? = some b)
    (hin : b.input.get InputId.inputFromForward = none)
    (hr : b._result = some r) (ho : w.results[r]? = some obj) :
    ∃ w1, Batch.allocateResult Result.allocate w self = some w1 ∧
      w1.results[r]? = some { obj with status := Status.configurationError } ∧
      Batch.getResult w1 self = some (some r) := by
  refine ⟨_, Batch.allocateResult_eq Result.allocate w self r b obj h hr ho, ?_, ?_⟩
  · rw [getElem?_set_self_of_some _ _ _ _ ho]
    simp [Result.allocate, hin]
  · simp [Batch.getResult, getElem?_set_self_of_some _ _ _ _ h, hr]

theorem allocateResult_reports_missing_input_witness :
    newWorld.batches[0]? = some newBatch ∧
    newBatch.input.get InputId.inputFromForward = none ∧
    newBatch._result = some 0 ∧ newWorld.results[0]? = some Result.new ∧
    ∃ w1, Batch.allocateResult Result.allocate newWorld 0 = some w1 ∧
      w1.results[0]? = some { Result.new with status := Status.configurationError } ∧
      Batch.getResult w1 0 = some (some 0) :=
  ⟨rfl, rfl, rfl, rfl,
    allocateResult_reports_missing_input newWorld 0 0 newBatch Result.new rfl rfl rfl rfl⟩

/-- C8, as stated, fails: in a newly constructed `Batch` `_res` is null; its
`allocateResult()` fails (the `Result` records a configuration error, the gradient slot
stays empty), and yet `_res` then points to the `Result`. -/
theorem allocateResult_failure_binds_example :
    Batch.new FPType.float defaultDense World.empty = some (newWorld, 0) ∧
    Batch.resPtr newWorld 0 = some none ∧
    Batch.allocateResult Result.allocate newWorld 0 = some failedWorld ∧
    failedWorld.results[0]? = some ⟨none, Status.configurationError⟩ ∧
    Batch.getResult failedWorld 0 = some (some 0) ∧
    Batch.resPtr failedWorld 0 = some (some 0) := by
  decide

/-- C8, amended: for every live `Batch` whose `_res` is null and whose `Result` handle
points to an existing `Result`, if the allocation reports a configuration error then
`allocateResult()` still returns, the handle `getResult()` returns is unchanged, `_res`
is bound to the object of that handle, the `Result` holds exactly what the allocation
left in it (error status included), and no `Result` is created. -/
theorem allocateResult_failure_still_binds (alloc : Allocate) (w : World) (self r : Addr)
    (b : Batch) (obj : Result) (h : w.batches[self]? = some b) (hres : b._res = none)
    (hr : b._result = some r) (ho : w.results[r]? = some obj)
    (hfail : (alloc b.fpType b.input none b.method obj).status = Status.configurationError) :
    ∃ w1 obj1, Batch.allocateResult alloc w self = some w1 ∧
      Batch.resPtr w self = some none ∧
      Batch.getResult w1 self = some (some r) ∧
      Batch.resPtr w1 self = some (some r) ∧
      w1.results[r]? = some obj1 ∧
      obj1 = alloc b.fpType b.input none b.method obj ∧
      obj1.status = Status.configurationError ∧
      w1.results.length = w.results.length := by
  refine ⟨_, _, Batch.allocateResult_eq alloc w self r b obj h hr ho, ?_, ?_, ?_, ?_, rfl,
    hfail, ?_⟩
  · simp [Batch.resPtr, h, hres]
  · simp [Batch.getResult, getElem?_set_self_of_some _ _ _ _ h, hr]
  · simp [Batch.resPtr, getElem?_set_self_of_some _ _ _ _ h]
  · exact getElem?_set_self_of_some _ _ _ _ ho
  · simp

theorem allocateResult_failure_still_binds_witness :
    newWorld.batches[0]? = some newBatch ∧ newBatch._res = none ∧
    newBatch._result = some 0 ∧ newWorld.results[0]? = some Result.new ∧
    (Result.allocate newBatch.fpType newBatch.input none newBatch.method Result.new).status =
      Status.configurationError ∧
    ∃ w1 obj1, Batch.allocateResult Result.allocate newWorld 0 = some w1 ∧
      Batch.resPtr newWorld 0 = some none ∧
      Batch.getResult w1 0 = some (some 0) ∧
      Batch.resPtr w1 0 = some (some 0) ∧
      w1.results[0]? = some obj1 ∧
      obj1 = Result.allocate newBatch.fpType newBatch.input none newBatch.method Result.new ∧
      obj1.status = Status.configurationError ∧
      w1.results.length = newWorld.results.length :=
  ⟨rfl, rfl, rfl, rfl, rfl,
    allocateResult_failure_still_binds Result.allocate newWorld 0 0 newBatch Result.new
      rfl rfl rfl rfl rfl⟩

/-! ## Method, input and parameter -/

/-- C9: the default constructor of the instantiation with method `m` builds a `Batch`
whose `getMethod()` returns `m`. For every `Batch` whose `getMethod()` returns `m`, after
any sequence of client calls (on it or on other objects) `getMethod()` still returns `m`,
`clone()` returns a `Batch` that reports `m` too, and `allocateResult()`, whenever the
`Result` handle points to an existing `Result`, returns having called the allocation with
`m` as its method argument. -/
theorem getMethod_fixed (alloc : Allocate) (w : World) (self : Addr) (m : Int)
    (hm : Batch.getMethod w self = some m) :
    (∀ fp w0, ∃ w1 a, Batch.new fp m w0 = some (w1, a) ∧ Batch.getMethod w1 a = some m) ∧
    ∀ ops w2, run alloc w ops = some w2 →
      Batch.getMethod w2 self = some m ∧
      (∃ w3 c, Batch.clone w2 self = some (w3, c) ∧ Batch.getMethod w3 c = some m ∧
        Batch.getMethod w3 self = some m) ∧
      ∀ b r obj, w2.batches[self]? = some b → b._result = some r →
        w2.results[r]? = some obj →
        ∃ w3, Batch.allocateResult alloc w2 self = some w3 ∧
          w3.results[r]? = some (alloc b.fpType b.input none m obj) ∧
          Batch.getMethod w3 self = some m := by
  constructor
  · intro fp w0
    refine ⟨_, _, Batch.new_eq fp m w0, ?_⟩
    simp [Batch.getMethod, getElem?_length_append]
  · intro ops w2 hrun
    cases hb : w.batches[self]? with
    | none => simp [Batch.getMethod, hb] at hm
    | some b0 =>
      have hm0 : b0.method = m := by simpa [Batch.getMethod, hb] using hm
      obtain ⟨b2, hb2, hm2, _⟩ := run_keeps alloc ops w w2 self b0 hrun hb
      have hmeth : b2.method = m := hm2.trans hm0
      refine ⟨by simp [Batch.getMethod, hb2, hmeth], ?_, ?_⟩
      · have hclone := Batch.copy_eq w2 self b2 hb2
        refine ⟨_, _, hclone, ?_, ?_⟩
        · simp [Batch.getMethod, getElem?_length_append, hmeth]
        · simp [Batch.getMethod, getElem?_append_of_some _ _ _ _ hb2, hmeth]
      · intro b r obj hb3 hr ho
        rw [hb2] at hb3
        cases hb3
        refine ⟨_, Batch.allocateResult_eq alloc w2 self r b2 obj hb2 hr ho, ?_, ?_⟩
        · rw [← hmeth]
          exact getElem?_set_self_of_some _ _ _ _ ho
        · simp [Batch.getMethod, getElem?_set_self_of_some _ _ _ _ hb2, hmeth]

theorem getMethod_fixed_witness :
    Batch.getMethod newWorld 0 = some defaultDense ∧
    ((∀ fp w0, ∃ w1 a, Batch.new fp defaultDense w0 = some (w1, a) ∧
        Batch.getMethod w1 a = some defaultDense) ∧
    ∀ ops w2, run Result.allocate newWorld ops = some w2 →
      Batch.getMethod w2 0 = some defaultDense ∧
      (∃ w3 c, Batch.clone w2 0 = some (w3, c) ∧ Batch.getMethod w3 c = some defaultDense ∧
        Batch.getMethod w3 0 = some defaultDense) ∧
      ∀ b r obj, w2.batches[0]? = some b → b._result = some r →
        w2.results[r]? = some obj →
        ∃ w3, Batch.allocateResult Result.allocate w2 0 = some w3 ∧
          w3.results[r]? = some (Result.allocate b.fpType b.input none defaultDense obj) ∧
          Batch.getMethod w3 0 = some defaultDense) :=
  ⟨rfl, getMethod_fixed Result.allocate newWorld 0 defaultDense rfl⟩

/-- C10: for every live `Batch` of a store a client can produce, `getLayerParameter()`
returns the null parameter, `getLayerInput()` returns the address of the `Batch`'s own
`input`, which is what `_in` holds since construction, and `allocateResult()`, whenever
the `Result` handle is non-empty, returns having called the allocation with a null
parameter (and the `Batch`'s own input). -/
theorem getLayerInput_getLayerParameter (alloc : Allocate) (w : World) (self : Addr)
    (b : Batch) (hw : Reachable alloc w) (h : w.batches[self]? = some b) :
    Batch.getLayerParameter w self = some none ∧
    Batch.getLayerInput w self = some ⟨self⟩ ∧
    Batch.inPtr w self = some (Batch.getLayerInput w self) ∧
    ∀ r, b._result = some r →
      ∃ obj w1, w.results[r]? = some obj ∧ Batch.allocateResult alloc w self = some w1 ∧
        w1.results[r]? = some (alloc b.fpType b.input (none : Option Parameter) b.method obj) ∧
        Batch.getLayerParameter w1 self = some none ∧
        Batch.inPtr w1 self = some (some ⟨self⟩) := by
  obtain ⟨hin, hlive, _, _⟩ := Inv_of_Reachable alloc w hw self b h
  refine ⟨by simp [Batch.getLayerParameter, h], by simp [Batch.getLayerInput, h],
    by simp [Batch.inPtr, Batch.getLayerInput, h, hin], ?_⟩
  intro r hr
  have hlt : r < w.results.length := hlive r hr
  have ho : w.results[r]? = some w.results[r] := List.getElem?_eq_getElem hlt
  refine ⟨_, _, ho, Batch.allocateResult_eq alloc w self r b _ h hr ho, ?_, ?_, ?_⟩
  · exact getElem?_set_self_of_some _ _ _ _ ho
  · simp [Batch.getLayerParameter, getElem?_set_self_of_some _ _ _ _ h]
  · simp [Batch.inPtr, getElem?_set_self_of_some _ _ _ _ h, hin]

theorem getLayerInput_getLayerParameter_witness :
    Reachable Result.allocate demoWorld ∧ demoWorld.batches[0]? = some demoBatch ∧
    (Batch.getLayerParameter demoWorld 0 = some none ∧
    Batch.getLayerInput demoWorld 0 = some ⟨0⟩ ∧
    Batch.inPtr demoWorld 0 = some (Batch.getLayerInput demoWorld 0) ∧
    ∀ r, demoBatch._result = some r →
      ∃ obj w1, demoWorld.results[r]? = some obj ∧
        Batch.allocateResult Result.allocate demoWorld 0 = some w1 ∧
        w1.results[r]? = some (Result.allocate demoBatch.fpType demoBatch.input
          (none : Option Parameter) demoBatch.method obj) ∧
        Batch.getLayerParameter w1 0 = some none ∧
        Batch.inPtr w1 0 = some (some ⟨0⟩)) :=
  ⟨demoWorld_reachable, rfl,
    getLayerInput_getLayerParameter Result.allocate demoWorld 0 demoBatch
      demoWorld_reachable rfl⟩

end AbsLayerBackward
